import Mathlib

/-!
Shallow embedding of the lead-scraper core: the timing engine
(`utils/randomDelayer.js`), the list-readiness waiter
(`utils/waitForLeadList.js`), the CSV exporter (`utils/saveProfilesCsv.js`)
and the CSV header migrator (`utils/upgradeCsvHeaders.js`), together with
theorems settling the spec claims about them.

Modelling conventions:
* JavaScript strings are Lean `String`s; character-level operations work on
  `String.data` (`List Char`).
* `null`/`undefined` values are `Option String` with `none` for the nullish
  cases.
* The filesystem is an association list from path to file content; a write
  oracle `writeOk : String → Bool` models which write calls succeed
  (a failed write throws and leaves the file unchanged).
* `path.resolve` is modelled as the identity on paths.
* External library behaviour (`csv-parse`, `csv-stringify`, `readline`) is
  embedded as executable Lean functions restricted to the option sets the
  source uses (`columns`, `bom`, `trim`, `skip_empty_lines`,
  `relax_column_count`; `header`, `columns`, `bom`).
-/

/-- Lowercasing as JavaScript `String.prototype.toLowerCase` on ASCII data. -/
def lowerStr (s : String) : String := ⟨s.data.map Char.toLower⟩

/-- Whitespace recognized by JavaScript `String.prototype.trim`
(ASCII subset). -/
def isWsChar (c : Char) : Bool :=
  (c == ' ') || (c == '\t') || (c == '\n') || (c == '\r') || (c == '\x0b') || (c == '\x0c')

/-- Trim leading and trailing whitespace from a character list. -/
def trimChars (l : List Char) : List Char :=
  (((l.dropWhile isWsChar).reverse).dropWhile isWsChar).reverse

/-- JavaScript `String.prototype.trim` (ASCII whitespace). -/
def jsTrim (s : String) : String := ⟨trimChars s.data⟩

/-- `Array.prototype.join(sep)` for a list of strings. -/
def joinWith (sep : String) : List String → String
  | [] => ""
  | [x] => x
  | x :: xs => x ++ sep ++ joinWith sep xs

/-- Does `l` start with `pat`? (helper for substring search). -/
def listStarts : List Char → List Char → Bool
  | _, [] => true
  | [], _ :: _ => false
  | c :: cs, p :: ps => (c == p) && listStarts cs ps

/-- Does `l` contain `pat` as a contiguous run?  Models JavaScript
`String.prototype.includes`. -/
def containsSub (pat : List Char) : List Char → Bool
  | [] => listStarts [] pat
  | c :: cs => listStarts (c :: cs) pat || containsSub pat cs

/-- JavaScript `String.prototype.includes`. -/
def strContains (s pat : String) : Bool := containsSub pat.data s.data

/-! ### TimingEngine (`utils/randomDelayer.js`)

`nextDelaySecs(min, max)` computes `Math.random() * (max - min) + min` and
multiplies the result by the ambient `SPEED_SCALE` constant (derived from the
environment).  The embedding passes the random sample and the scale value as
explicit parameters; numbers are rationals. -/

/-- `nextDelaySecs` from `utils/randomDelayer.js`: `rand` is the
`Math.random()` sample, `speedScale` the ambient `SPEED_SCALE` value. -/
def nextDelaySecs (rand speedScale min max : ℚ) : ℚ :=
  (rand * (max - min) + min) * speedScale

/-! ### ListReadinessWaiter (`utils/waitForLeadList.js`)

The function performs five awaited steps against the Playwright page: a
visibility wait, an attachment wait, a `waitForFunction` row-count wait, a
`waitForLoadState('domcontentloaded')` wait whose rejection is swallowed by
`.catch(() => {})`, and a random settle delay wrapped in `try { } catch { }`.
Each primitive wait is modelled by its outcome (`Except` value) recorded in a
`PageWaits` structure; `waitForLeadList` sequences them exactly as the source
does. -/

/-- Failure of a bounded Playwright wait. -/
inductive WaitError
  | timeout
deriving DecidableEq

deriving instance DecidableEq for Except

/-- Outcomes of the five primitive waits `waitForLeadList` performs,
in source order. -/
structure PageWaits where
  visibleWait : Except WaitError Unit
  attachedWait : Except WaitError Unit
  rowCountWait : Except WaitError Unit
  loadStateWait : Except WaitError Unit
  settleDelay : Except WaitError Unit
deriving DecidableEq

/-- Models `.catch(() => {})` / `try { } catch {}`: the step's outcome is
discarded and execution continues. -/
def swallow (_e : Except WaitError Unit) : Except WaitError Unit := Except.ok ()

/-- `waitForLeadList` from `utils/waitForLeadList.js`: the first three waits
are awaited bare (their rejection propagates), the `waitForLoadState` call has
`.catch(() => {})`, and the settle delay sits in `try { } catch {}`. -/
def waitForLeadList (p : PageWaits) : Except WaitError Unit := do
  _ ← p.visibleWait
  _ ← p.attachedWait
  _ ← p.rowCountWait
  _ ← swallow p.loadStateWait
  _ ← swallow p.settleDelay
  pure ()

/-! ### CsvExporter (`utils/saveProfilesCsv.js`) -/

/-- A JavaScript value that is either a string or nullish (`null`/`undefined`,
modelled as `none`). -/
abbrev JsVal := Option String

/-- A row/record object: an insertion-ordered association list from property
name to value.  Used both for profile rows handed to the exporter and for the
records produced by the CSV parser. -/
abbrev Rec := List (String × JsVal)

/-- `row[key]` on a record: absent property and property holding a nullish
value both read back as `none`. -/
def jsGet (row : Rec) (k : String) : Option String :=
  (List.lookup k row).getD none

/-- Strip NUL characters: `.replace(/\u0000/g, '')`. -/
def stripNul (s : String) : String := ⟨s.data.filter (fun c => c != '\x00')⟩

/-- Collapse each line break to one space: `.replace(/\r?\n/g, ' ')`.
A `\r\n` pair or a lone `\n` becomes a single space; a lone `\r` is kept. -/
def collapseNLChars : List Char → List Char
  | [] => []
  | [c] => if c = '\n' then [' '] else [c]
  | c :: c2 :: rest =>
    if c = '\n' then ' ' :: collapseNLChars (c2 :: rest)
    else if c = '\r' ∧ c2 = '\n' then ' ' :: collapseNLChars rest
    else c :: collapseNLChars (c2 :: rest)

/-- String version of `collapseNLChars`. -/
def collapseNL (s : String) : String := ⟨collapseNLChars s.data⟩

/-- Double every `"`: `.replace(/"/g, '""')`. -/
def dupChars : List Char → List Char
  | [] => []
  | c :: rest => if c = '"' then '"' :: '"' :: dupChars rest else c :: dupChars rest

/-- String version of `dupChars`. -/
def dupQuotes (s : String) : String := ⟨dupChars s.data⟩

/-- `esc` from `utils/saveProfilesCsv.js`: nullish values become `""`; other
values are NUL-stripped, newline-collapsed, trimmed, quote-doubled and wrapped
in double quotes. -/
def esc : JsVal → String
  | none => "\"\""
  | some v => "\"" ++ dupQuotes (jsTrim (collapseNL (stripNul v))) ++ "\""

/-- The filesystem: a map from path to file content (`none` = no file). -/
abbrev FS := String → Option String

/-- Read a file's content, `none` when the path does not exist. -/
def fsRead (fs : FS) (p : String) : Option String := fs p

/-- `fs.writeFile`: replace the file's content, creating the file if needed. -/
def fsWrite (fs : FS) (p c : String) : FS :=
  fun q => if q = p then some c else fs q

/-- A one-file filesystem, for concrete instances. -/
def fsOne (p c : String) : FS := fun q => if q = p then some c else none

/-- The empty filesystem. -/
def fsNil : FS := fun _ => none

/-- `fs.appendFile`: append to the file's content, creating the file if
needed. -/
def fsAppend (fs : FS) (p c : String) : FS :=
  match fsRead fs p with
  | some old => fsWrite fs p (old ++ c)
  | none => fsWrite fs p c

/-- `path.resolve`, modelled as the identity on paths. -/
def resolvePath (p : String) : String := p

/-- A column descriptor `{ key, header }` of `utils/saveProfilesCsv.js`. -/
structure Col where
  key : String
  header : String
deriving DecidableEq

/-- `BASE_COLUMNS` from `utils/saveProfilesCsv.js`. -/
def BASE_COLUMNS : List Col :=
  [⟨"name", "Full Name"⟩, ⟨"first_name", "First Name"⟩, ⟨"last_name", "Last Name"⟩,
   ⟨"title", "Title"⟩, ⟨"company", "Company"⟩, ⟨"person_location", "Person Location"⟩,
   ⟨"person_title", "LinkedIn URL"⟩]

/-- `EXT_WEBSITE` from `utils/saveProfilesCsv.js`: the base columns plus a
single `Website` column mapped from the `domain` key. -/
def EXT_WEBSITE : List Col := BASE_COLUMNS ++ [⟨"domain", "Website"⟩]

/-- The first line of a file's content, as `readline` emits it: `none` when
the file is empty (the stream closes without a line event), otherwise the
characters before the first line terminator. -/
def firstLineOf (content : String) : Option String :=
  if content = "" then none
  else some ⟨content.data.takeWhile (fun c => c != '\n' && c != '\r')⟩

/-- `readHeaderLine` from `utils/saveProfilesCsv.js`: `null` when the file
does not exist, otherwise its first line. -/
def readHeaderLine (fs : FS) (p : String) : Option String :=
  match fsRead fs p with
  | none => none
  | some content => firstLineOf content

/-- `chooseColumnsForExistingHeader` from `utils/saveProfilesCsv.js`. -/
def chooseColumnsForExistingHeader (headerLine : Option String) : List Col :=
  let lc := lowerStr (headerLine.getD "")
  if strContains lc "website" || strContains lc "domain" then EXT_WEBSITE else BASE_COLUMNS

/-- The per-row body of `ensureKeysForColumns`: any column key the row does
not yet own is added with an empty-string value. -/
def ensureRow (r : Rec) (cols : List Col) : Rec :=
  cols.foldl
    (fun acc c => if (List.lookup c.key acc).isSome then acc else acc ++ [(c.key, some "")])
    r

/-- `ensureKeysForColumns` from `utils/saveProfilesCsv.js` (the in-place
mutation is modelled by returning the updated rows). -/
def ensureKeysForColumns (rows : List Rec) (cols : List Col) : List Rec :=
  rows.map (fun r => ensureRow r cols)

/-- The column set `saveProfilesCsv` works with: inferred from the existing
file's first line when the destination exists, `EXT_WEBSITE` otherwise. -/
def saveColumns (fs : FS) (p : String) : List Col :=
  if (fsRead fs p).isSome then chooseColumnsForExistingHeader (readHeaderLine fs p)
  else EXT_WEBSITE

/-- `esc(c.header || c.key)`: the header label, or the key when the label is
the empty string (falsy). -/
def colHeaderText (c : Col) : String := if c.header = "" then c.key else c.header

/-- The serialized header row (CRLF-terminated). -/
def headerFor (cols : List Col) : String :=
  joinWith "," (cols.map (fun c => esc (some (colHeaderText c)))) ++ "\r\n"

/-- One serialized body row. -/
def rowLineFor (cols : List Col) (r : Rec) : String :=
  joinWith "," (cols.map (fun c => esc (some ((jsGet r c.key).getD ""))))

/-- The serialized body (rows joined and terminated by CRLF). -/
def bodyFor (cols : List Col) (rows : List Rec) : String :=
  joinWith "\r\n" (rows.map (rowLineFor cols)) ++ "\r\n"

/-- The single filesystem effect `saveProfilesCsv` performs. -/
inductive FsWrite
  | append (p s : String)
  | overwrite (p s : String)
deriving DecidableEq

/-- The string a write effect writes. -/
def chunkOf : FsWrite → String
  | .append _ s => s
  | .overwrite _ s => s

/-- Apply a write effect to the filesystem. -/
def applyWrite (fs : FS) : FsWrite → FS
  | .append p s => fsAppend fs p s
  | .overwrite p s => fsWrite fs p s

/-- The write `saveProfilesCsv` performs for non-empty `rows`: append-mode
against an existing file appends only the body; append-mode against a missing
file appends BOM + header + body (creating the file); otherwise the file is
overwritten with BOM + header + body.  The BOM is included only when
`includeBOM` is set. -/
def saveWritePlan (fs : FS) (rows : List Rec) (filePath : String)
    (append : Option Bool) (includeBOM : Bool) : FsWrite :=
  let fileExists := (fsRead fs filePath).isSome
  let cols := saveColumns fs filePath
  let rows2 := ensureKeysForColumns rows cols
  let bomMark := if includeBOM then "\uFEFF" else ""
  if append = some true ∨ (append = none ∧ fileExists = true) then
    if fileExists = false then
      .append filePath (bomMark ++ headerFor cols ++ bodyFor cols rows2)
    else .append filePath (bodyFor cols rows2)
  else .overwrite filePath (bomMark ++ headerFor cols ++ bodyFor cols rows2)

/-- `saveProfilesCsv` from `utils/saveProfilesCsv.js`.  Returns the updated
filesystem, the (mutated-in-place) rows, and the resolved destination path.
Empty (or nullish, modelled as empty) `rows` return immediately without
touching the filesystem. -/
def saveProfilesCsv (fs : FS) (rows : List Rec) (filePath : String)
    (append : Option Bool) (includeBOM : Bool) : FS × List Rec × String :=
  if rows = [] then (fs, rows, resolvePath filePath)
  else
    (applyWrite fs (saveWritePlan fs rows filePath append includeBOM),
     ensureKeysForColumns rows (saveColumns fs filePath),
     resolvePath filePath)

/-- Does the string start with the byte-order mark? -/
def hasBom (s : String) : Bool :=
  match s.data with
  | c :: _ => c == '\uFEFF'
  | [] => false

/-! ### A reference reader for one escaped CSV field

Used to state the escape/parse round-trip claim: `parseField` reads one
double-quoted CSV field (doubled quotes decode to one quote) and returns its
decoded content. -/

/-- Decode the remainder of a quoted field (the opening quote already
consumed): `""` decodes to `"`, a lone closing quote must end the string. -/
def unq : List Char → Option (List Char)
  | [] => none
  | c :: rest =>
    if c = '"' then
      match rest with
      | [] => some []
      | c2 :: rest2 => if c2 = '"' then (unq rest2).map (fun t => '"' :: t) else none
    else (unq rest).map (fun t => c :: t)

/-- Parse a complete double-quoted CSV field back to its content. -/
def parseField (s : String) : Option String :=
  match s.data with
  | c :: rest => if c = '"' then (unq rest).map (fun l => (⟨l⟩ : String)) else none
  | [] => none

/-! ### SchemaMigrator (`utils/upgradeCsvHeaders.js`)

The migrator reads the file, parses it with `csv-parse`
(`columns: true, bom: true, trim: true, skip_empty_lines: true,
relax_column_count: true`), rewrites the records against the canonical
header list, and — unless the header is already canonical and Email-free —
writes a `.bak` backup (when enabled) followed by the migrated content
produced by `csv-stringify` (`header: true, columns, bom: true`).

The parser below embeds `csv-parse` restricted to those options: BOM
stripped, double-quoted fields with doubled-quote escapes, `\r\n`/`\n`/`\r`
record breaks, fields trimmed, empty lines skipped, short records padded
with `undefined` (here `none`), surplus fields dropped. -/

/-- Scanner state: inside or outside a double-quoted field. -/
inductive CsvMode
  | plain
  | quoted
deriving DecidableEq

/-- Character-level CSV scanner producing raw records (lists of fields). -/
def scanCsv : CsvMode → List Char → String → List String → List (List String) → List (List String)
  | .plain, [], cur, fields, recs =>
    if cur = "" ∧ fields = [] then recs else recs ++ [fields ++ [cur]]
  | .plain, '\r' :: '\n' :: rest, cur, fields, recs =>
    scanCsv .plain rest "" [] (recs ++ [fields ++ [cur]])
  | .plain, '\n' :: rest, cur, fields, recs =>
    scanCsv .plain rest "" [] (recs ++ [fields ++ [cur]])
  | .plain, '\r' :: rest, cur, fields, recs =>
    scanCsv .plain rest "" [] (recs ++ [fields ++ [cur]])
  | .plain, ',' :: rest, cur, fields, recs =>
    scanCsv .plain rest "" (fields ++ [cur]) recs
  | .plain, '"' :: rest, cur, fields, recs =>
    if cur = "" then scanCsv .quoted rest cur fields recs
    else scanCsv .plain rest (cur.push '"') fields recs
  | .plain, c :: rest, cur, fields, recs =>
    scanCsv .plain rest (cur.push c) fields recs
  | .quoted, [], cur, fields, recs => recs ++ [fields ++ [cur]]
  | .quoted, '"' :: '"' :: rest, cur, fields, recs =>
    scanCsv .quoted rest (cur.push '"') fields recs
  | .quoted, '"' :: rest, cur, fields, recs =>
    scanCsv .plain rest cur fields recs
  | .quoted, c :: rest, cur, fields, recs =>
    scanCsv .quoted rest (cur.push c) fields recs

/-- Strip a leading byte-order mark (`bom: true`). -/
def stripBomStr (s : String) : String :=
  match s.data with
  | '\uFEFF' :: rest => ⟨rest⟩
  | _ => s

/-- `csv-parse` raw record list: scan, trim every field (`trim: true`), skip
empty lines (`skip_empty_lines: true`). -/
def parseCsvRecords (s : String) : List (List String) :=
  ((scanCsv .plain (stripBomStr s).data "" [] []).map (fun r => r.map jsTrim)).filter
    (fun r => r ≠ [""])

/-- Pad a record's fields to the header width with `undefined`
(`relax_column_count: true`); surplus fields are dropped by the `zip` in
`buildObj`. -/
def padFields (n : Nat) (fields : List String) : List JsVal :=
  fields.map some ++ List.replicate (n - fields.length) none

/-- Set an object property: overwrite in place when the key exists, append
otherwise (JavaScript object insertion order). -/
def objSet (r : Rec) (k : String) (v : JsVal) : Rec :=
  if (List.lookup k r).isSome then r.map (fun e => if e.1 == k then (k, v) else e)
  else r ++ [(k, v)]

/-- Build the record object for one data row (`columns: true`). -/
def buildObj (hs : List String) (fields : List String) : Rec :=
  (hs.zip (padFields hs.length fields)).foldl (fun r kv => objSet r kv.1 kv.2) []

/-- `csv-parse(raw, { columns: true, ... })`: the first record names the
columns, the remaining records become objects. -/
def parseObjects (raw : String) : List Rec :=
  match parseCsvRecords raw with
  | [] => []
  | hdr :: rest => rest.map (buildObj hdr)

/-- The header list the migrator sees: `Object.keys(rows[0])`
(empty when parsing yields no records). -/
def headersOfContent (raw : String) : List String :=
  match parseObjects raw with
  | [] => []
  | r :: _ => r.map Prod.fst

/-- A canonical column of `utils/upgradeCsvHeaders.js`:
`{ header, aliases }`. -/
structure CanonCol where
  header : String
  aliases : List String

/-- `CANONICAL_HEADERS` from `utils/upgradeCsvHeaders.js`. -/
def CANONICAL_HEADERS : List CanonCol :=
  [⟨"Full Name", ["Full Name", "Name", "full name", "fullname", "full_name"]⟩,
   ⟨"First Name", ["First Name", "first_name", "first name", "firstname"]⟩,
   ⟨"Last Name", ["Last Name", "last_name", "last name", "lastname"]⟩,
   ⟨"Title", ["Title", "title"]⟩,
   ⟨"Company", ["Company", "company"]⟩,
   ⟨"Person Location", ["Person Location", "Location", "person_location", "person location", "location"]⟩,
   ⟨"LinkedIn URL", ["LinkedIn URL", "LinkedIn", "person_title", "linkedin url", "linkedin"]⟩,
   ⟨"Website", ["Website", "domain", "Domain", "domain1", "domain2", "domain3"]⟩]

/-- `canonicalOrder = CANONICAL_HEADERS.map(c => c.header)`. -/
def canonicalOrder : List String := CANONICAL_HEADERS.map (·.header)

/-- `ciFind(headers, name)`: the first header case-insensitively equal to
`name`. -/
def ciFind (headers : List String) (name : String) : Option String :=
  headers.find? (fun h => lowerStr h == lowerStr name)

/-- `getFirstAliasHeader(headers, aliases)`: the actual header matching the
first alias present. -/
def getFirstAliasHeader (headers aliases : List String) : Option String :=
  aliases.findSome? (fun a => ciFind headers a)

/-- The alias loop inside `getValue`: the first alias whose header exists and
whose value is non-nullish and non-blank. -/
def getValueLoop (row : Rec) (headers : List String) : List String → Option String
  | [] => none
  | a :: rest =>
    match ciFind headers a with
    | some found =>
      match jsGet row found with
      | some v => if jsTrim v ≠ "" then some v else getValueLoop row headers rest
      | none => getValueLoop row headers rest
    | none => getValueLoop row headers rest

/-- `getValue(row, headers, aliases)` from `utils/upgradeCsvHeaders.js`. -/
def getValue (row : Rec) (headers aliases : List String) : String :=
  match getValueLoop row headers aliases with
  | some v => v
  | none =>
    match getFirstAliasHeader headers aliases with
    | some fb => (jsGet row fb).getD ""
    | none => ""

/-- The `usedHeaders` set: the lower-cased actual header consumed by each
canonical column's alias list.  (In the source the set is populated inside the
row loop, but its contents depend only on `headers`, so it is the same at
every row.) -/
def usedHeadersOf (headers : List String) : List String :=
  CANONICAL_HEADERS.filterMap (fun c => (getFirstAliasHeader headers c.aliases).map lowerStr)

/-- The per-row rewrite of the migrator: the canonical columns (via
`getValue`) followed by the original columns that are neither `email` nor a
consumed alias. -/
def mapRow (headers : List String) (row : Rec) : List (String × String) :=
  (CANONICAL_HEADERS.map (fun c => (c.header, getValue row headers c.aliases)))
    ++ ((headers.filter (fun h =>
          (lowerStr h != "email") && !((usedHeadersOf headers).contains (lowerStr h)))).map
        (fun h => (h, (jsGet row h).getD "")))

/-- `extraHeaders`: original columns that are neither `email` nor
case-insensitively equal to any canonical alias. -/
def extraHeadersOf (headers : List String) : List String :=
  headers.filter (fun h =>
    (lowerStr h != "email") &&
    !(CANONICAL_HEADERS.any (fun c => c.aliases.any (fun a => lowerStr a == lowerStr h))))

/-- `finalHeaders = [...canonicalOrder, ...extraHeaders]`. -/
def finalHeadersOf (headers : List String) : List String :=
  canonicalOrder ++ extraHeadersOf headers

/-- `hasEmail`: is some header case-insensitively `email`? -/
def hasEmailB (headers : List String) : Bool :=
  (headers.map lowerStr).contains "email"

/-- `alreadyCanonical`: no Email column, at least as many headers as canonical
columns, and the leading headers equal the canonical sequence
case-insensitively, in order. -/
def alreadyCanonicalB (headers : List String) : Bool :=
  !(hasEmailB headers) && decide (canonicalOrder.length ≤ headers.length) &&
    (canonicalOrder.zip headers).all (fun q => lowerStr q.2 == lowerStr q.1)

/-- Does a field need quoting under `csv-stringify`'s default quoting? -/
def needsQuote (s : String) : Bool :=
  s.data.any (fun c => (c == ',') || (c == '"') || (c == '\n') || (c == '\r'))

/-- Serialize one field under `csv-stringify`'s default quoting. -/
def csvField (s : String) : String :=
  if needsQuote s then "\"" ++ (⟨dupChars s.data⟩ : String) ++ "\"" else s

/-- `csv-stringify(rows, { header: true, columns, bom: true })`: BOM, header
row, then each record's values in column order, newline-terminated. -/
def stringifyCsv (cols : List String) (rows : List (List (String × String))) : String :=
  "\uFEFF" ++ joinWith "," (cols.map csvField) ++ "\n"
    ++ String.join (rows.map (fun r =>
        joinWith "," (cols.map (fun c2 => csvField ((List.lookup c2 r).getD ""))) ++ "\n"))

/-- Outcome of a migration run. -/
inductive UpgradeResult
  | unchanged (reason : String)
  | changed (columns : List String)
deriving DecidableEq

/-- Outcome of `upgradeCsvHeaders` including thrown filesystem errors. -/
inductive UpgradeOutcome
  | ok (r : UpgradeResult)
  | readError
  | backupWriteError
  | writeError
deriving DecidableEq

/-- The body of `upgradeCsvHeaders` after a successful read of `raw`.
When a change is required and `backup` is set, the backup write to
`full ++ ".bak"` happens strictly before the overwrite of `full`; a failing
write (per the `writeOk` oracle) aborts with the filesystem as it stood. -/
def upgradeParsed (writeOk : String → Bool) (fs : FS) (full raw : String)
    (backup : Bool) : UpgradeOutcome × FS :=
  match parseObjects raw with
  | [] => (.ok (.unchanged "empty"), fs)
  | r0 :: rest =>
    let headers := r0.map Prod.fst
    let newRows := (r0 :: rest).map (mapRow headers)
    let finalHeaders := finalHeadersOf headers
    if alreadyCanonicalB headers && !(hasEmailB headers) then
      (.ok (.unchanged "already-canonical"), fs)
    else
      let csv := stringifyCsv finalHeaders newRows
      if backup then
        if writeOk (full ++ ".bak") then
          let fs1 := fsWrite fs (full ++ ".bak") raw
          if writeOk full then (.ok (.changed finalHeaders), fsWrite fs1 full csv)
          else (.writeError, fs1)
        else (.backupWriteError, fs)
      else
        if writeOk full then (.ok (.changed finalHeaders), fsWrite fs full csv)
        else (.writeError, fs)

/-- `upgradeCsvHeaders` from `utils/upgradeCsvHeaders.js` over the modelled
filesystem. -/
def upgradeCsvHeadersFS (writeOk : String → Bool) (fs : FS) (filePath : String)
    (backup : Bool) : UpgradeOutcome × FS :=
  match fsRead fs (resolvePath filePath) with
  | none => (.readError, fs)
  | some raw => upgradeParsed writeOk fs (resolvePath filePath) raw backup

/-! ## Generic lemmas -/

/-- A successful association-list lookup is unaffected by appending. -/
theorem lookup_append_of_isSome {β : Type} (r l2 : List (String × β)) (k : String)
    (h : (List.lookup k r).isSome) : List.lookup k (r ++ l2) = List.lookup k r := by
  induction r with
  | nil => simp [List.lookup] at h
  | cons e rest ih =>
    obtain ⟨k', v⟩ := e
    by_cases hk : (k == k') = true
    · simp [List.lookup, hk]
    · simp only [List.lookup, hk, List.cons_append] at h ⊢
      simp only [Bool.false_eq_true] at *
      exact ih h

/-- A failed association-list lookup falls through an append. -/
theorem lookup_append_of_none {β : Type} (r l2 : List (String × β)) (k : String)
    (h : List.lookup k r = none) : List.lookup k (r ++ l2) = List.lookup k l2 := by
  induction r with
  | nil => simp
  | cons e rest ih =>
    obtain ⟨k', v⟩ := e
    by_cases hk : (k == k') = true
    · simp [List.lookup, hk] at h
    · simp only [List.lookup, hk, List.cons_append] at h ⊢
      simp only [Bool.false_eq_true] at *
      exact ih h

/-! ## Lemmas about `ensureRow` -/

/-- One `ensureRow` step for a single column, as an equation. -/
theorem ensureRow_single (r : Rec) (c : Col) :
    ensureRow r [c] =
      (if (List.lookup c.key r).isSome then r else r ++ [(c.key, some "")]) := by
  simp [ensureRow]

/-- `ensureRow` over a cons decomposes into a single step and the rest. -/
theorem ensureRow_cons (r : Rec) (c : Col) (cols : List Col) :
    ensureRow r (c :: cols) = ensureRow (ensureRow r [c]) cols := by
  simp [ensureRow]

/-- A single step never changes the defaulted view of any property. -/
theorem ensureRow_single_getD (r : Rec) (c : Col) (k : String) :
    (List.lookup k (ensureRow r [c])).getD (some "") =
      (List.lookup k r).getD (some "") := by
  rw [ensureRow_single]
  by_cases h : (List.lookup c.key r).isSome
  · simp [h]
  · simp only [h, Bool.false_eq_true, if_false]
    by_cases hk : (List.lookup k r).isSome
    · rw [lookup_append_of_isSome _ _ _ hk]
    · have hnone : List.lookup k r = none := by
        cases hval : List.lookup k r with
        | none => rfl
        | some v => rw [hval] at hk; simp at hk
      rw [lookup_append_of_none _ _ _ hnone, hnone]
      by_cases hkc : (k == c.key) = true
      · simp [List.lookup, hkc]
      · simp [List.lookup, hkc]

/-- After a single step for column `c`, the property `c.key` is present. -/
theorem ensureRow_single_isSome (r : Rec) (c : Col) :
    (List.lookup c.key (ensureRow r [c])).isSome := by
  rw [ensureRow_single]
  by_cases h : (List.lookup c.key r).isSome
  · rw [if_pos h]; exact h
  · have hnone : List.lookup c.key r = none := by
      cases hval : List.lookup c.key r with
      | none => rfl
      | some v => rw [hval] at h; simp at h
    simp [h, lookup_append_of_none _ _ _ hnone, List.lookup]

/-- A present property survives `ensureRow` unchanged. -/
theorem ensureRow_lookup_of_isSome (cols : List Col) (r : Rec) (k : String)
    (h : (List.lookup k r).isSome) :
    List.lookup k (ensureRow r cols) = List.lookup k r := by
  induction cols generalizing r with
  | nil => simp [ensureRow]
  | cons c cols ih =>
    rw [ensureRow_cons]
    have hstep : List.lookup k (ensureRow r [c]) = List.lookup k r := by
      rw [ensureRow_single]
      by_cases hc : (List.lookup c.key r).isSome
      · simp [hc]
      · simp only [hc, if_false]
        exact lookup_append_of_isSome _ _ _ h
    rw [ih (ensureRow r [c]) (by rw [hstep]; exact h), hstep]

/-- `ensureRow` gives every listed column an own property whose value is the
original one, defaulting a missing property to the empty string. -/
theorem ensureRow_lookup (cols : List Col) (r : Rec) (c : Col) (hc : c ∈ cols) :
    List.lookup c.key (ensureRow r cols) =
      some ((List.lookup c.key r).getD (some "")) := by
  induction cols generalizing r with
  | nil => cases hc
  | cons c' cols ih =>
    rw [ensureRow_cons]
    rcases List.mem_cons.mp hc with heq | hmem
    · subst heq
      have hs := ensureRow_single_isSome r c
      obtain ⟨w, hw⟩ := Option.isSome_iff_exists.mp hs
      rw [ensureRow_lookup_of_isSome cols _ _ (by rw [hw]; rfl), hw]
      have hgd := ensureRow_single_getD r c c.key
      rw [hw] at hgd
      have hval : w = (List.lookup c.key r).getD (some "") := by
        simp only [Option.getD_some] at hgd
        exact hgd
      rw [hval]
    · rw [ih _ hmem, ensureRow_single_getD]

/-! ## Claim C1 — fatality of the row-count wait -/

/-- C1 counterexample: with the visibility and attachment waits succeeding
and the minimum-element-count wait timing out, `waitForLeadList` returns the
error to the caller — it does not proceed and return success as the claim
states. -/
theorem waitForLeadList_rowCount_cex :
    waitForLeadList
        ⟨Except.ok (), Except.ok (), Except.error WaitError.timeout,
         Except.ok (), Except.ok ()⟩ = Except.error WaitError.timeout
    ∧ waitForLeadList
        ⟨Except.ok (), Except.ok (), Except.error WaitError.timeout,
         Except.ok (), Except.ok ()⟩ ≠ Except.ok () :=
  ⟨rfl, by decide⟩

/-- C1 (amended): if the minimum-element-count wait (step 3) exceeds its
timeout, the error propagates to the caller — the wait is fatal.  Only the
subsequent load-state wait and settle delay swallow their own failures: when
the first three waits succeed, `waitForLeadList` succeeds regardless of the
outcomes of steps 4 and 5. -/
theorem waitForLeadList_rowCount_fatal :
    (∀ (p : PageWaits) (e : WaitError),
        p.visibleWait = Except.ok () → p.attachedWait = Except.ok () →
        p.rowCountWait = Except.error e → waitForLeadList p = Except.error e)
    ∧ (∀ p : PageWaits,
        p.visibleWait = Except.ok () → p.attachedWait = Except.ok () →
        p.rowCountWait = Except.ok () → waitForLeadList p = Except.ok ()) := by
  constructor
  · intro p e h1 h2 h3
    simp only [waitForLeadList, h1, h2, h3]
    rfl
  · intro p h1 h2 h3
    simp only [waitForLeadList, h1, h2, h3]
    rfl

/-- C1 witness: both parts of `waitForLeadList_rowCount_fatal` applied at
concrete pages (the second with failing load-state and settle steps, showing
they are swallowed). -/
theorem waitForLeadList_rowCount_fatal_witness :
    waitForLeadList
        ⟨Except.ok (), Except.ok (), Except.error WaitError.timeout,
         Except.error WaitError.timeout, Except.error WaitError.timeout⟩
      = Except.error WaitError.timeout
    ∧ waitForLeadList
        ⟨Except.ok (), Except.ok (), Except.ok (),
         Except.error WaitError.timeout, Except.error WaitError.timeout⟩
      = Except.ok () :=
  ⟨waitForLeadList_rowCount_fatal.1 _ WaitError.timeout rfl rfl rfl,
   waitForLeadList_rowCount_fatal.2 _ rfl rfl rfl⟩

/-! ## Claim C9 — delay range of the timing engine -/

/-- C9: `nextDelaySecs` is the uniform sample over `[min, max)` multiplied by
the scale: for any random sample in `[0, 1)` the unscaled value lies in
`[min, max)` and the result is that value times the scale; in particular with
scale `1` the delay for `(2, 5)` lies in `[2, 5)`, and with scale `1/2` it
lies in `[1, 5/2)`. -/
theorem nextDelaySecs_range :
    (∀ rand scale lo hi : ℚ, 0 ≤ rand → rand < 1 → lo < hi →
       ∃ u : ℚ, lo ≤ u ∧ u < hi ∧ nextDelaySecs rand scale lo hi = u * scale)
    ∧ (∀ rand : ℚ, 0 ≤ rand → rand < 1 →
       2 ≤ nextDelaySecs rand 1 2 5 ∧ nextDelaySecs rand 1 2 5 < 5)
    ∧ (∀ rand : ℚ, 0 ≤ rand → rand < 1 →
       1 ≤ nextDelaySecs rand (1/2) 2 5 ∧ nextDelaySecs rand (1/2) 2 5 < 5/2) := by
  refine ⟨?_, ?_, ?_⟩
  · intro rand scale lo hi h0 h1 hlt
    refine ⟨rand * (hi - lo) + lo, ?_, ?_, rfl⟩
    · nlinarith
    · nlinarith
  · intro rand h0 h1
    constructor <;> (simp only [nextDelaySecs]; nlinarith)
  · intro rand h0 h1
    constructor <;> (simp only [nextDelaySecs]; nlinarith)

/-- C9 witness: `nextDelaySecs_range` applied at the concrete sample `1/2`. -/
theorem nextDelaySecs_range_witness :
    (∃ u : ℚ, 2 ≤ u ∧ u < 5 ∧ nextDelaySecs (1/2) 1 2 5 = u * 1)
    ∧ (2 ≤ nextDelaySecs (1/2) 1 2 5 ∧ nextDelaySecs (1/2) 1 2 5 < 5)
    ∧ (1 ≤ nextDelaySecs (1/2) (1/2) 2 5 ∧ nextDelaySecs (1/2) (1/2) 2 5 < 5/2) :=
  ⟨nextDelaySecs_range.1 (1/2) 1 2 5 (by norm_num) (by norm_num) (by norm_num),
   nextDelaySecs_range.2.1 (1/2) (by norm_num) (by norm_num),
   nextDelaySecs_range.2.2 (1/2) (by norm_num) (by norm_num)⟩

/-! ## Claim C5 — column-set inference -/

/-- C5: with non-empty rows, the column set `saveProfilesCsv` uses is
`EXT_WEBSITE` when the destination does not exist; when it exists, the set is
inferred from the file's first line only — `EXT_WEBSITE` exactly when that
line case-insensitively contains a `website` or `domain` marker, otherwise
`BASE_COLUMNS`.  The chosen set carries at most one `Website` column, and the
call's updated rows are defaulted against exactly that set. -/
theorem saveProfilesCsv_column_inference (fs : FS) (rows : List Rec) (p : String)
    (app : Option Bool) (bom : Bool) (hrows : rows ≠ []) :
    (fsRead fs p = none → saveColumns fs p = EXT_WEBSITE)
    ∧ (∀ content, fsRead fs p = some content →
        saveColumns fs p =
          if strContains (lowerStr ((firstLineOf content).getD "")) "website"
             || strContains (lowerStr ((firstLineOf content).getD "")) "domain"
          then EXT_WEBSITE else BASE_COLUMNS)
    ∧ ((saveColumns fs p).filter (fun c => c.header == "Website")).length ≤ 1
    ∧ (saveProfilesCsv fs rows p app bom).2.1
        = ensureKeysForColumns rows (saveColumns fs p) := by
  refine ⟨?_, ?_, ?_, ?_⟩
  · intro h
    simp [saveColumns, h]
  · intro content h
    simp [saveColumns, h, readHeaderLine, chooseColumnsForExistingHeader]
  · unfold saveColumns chooseColumnsForExistingHeader
    split
    · dsimp only
      split
      · decide
      · decide
    · decide
  · simp [saveProfilesCsv, hrows]

/-- C5 witness: `saveProfilesCsv_column_inference` applied to a one-row save
against an existing file whose header carries a `Website` marker. -/
theorem saveProfilesCsv_column_inference_witness :
    ([[("name", some "Ada")]] : List Rec) ≠ []
    ∧ (saveProfilesCsv (fsOne "out.csv" "Full Name,Website\r\nA,b.com\r\n")
         [[("name", some "Ada")]] "out.csv" none true).2.1
        = ensureKeysForColumns [[("name", some "Ada")]]
            (saveColumns (fsOne "out.csv" "Full Name,Website\r\nA,b.com\r\n") "out.csv") :=
  ⟨by decide,
   (saveProfilesCsv_column_inference (fsOne "out.csv" "Full Name,Website\r\nA,b.com\r\n")
      [[("name", some "Ada")]] "out.csv" none true (by decide)).2.2.2⟩

/-! ## Claim C10 — in-place row mutation and the empty-rows frame -/

/-- C10: for non-empty rows the call returns the input rows each extended in
place so that every key of the chosen column set is an own property — an
absent property is added with the empty-string value, a present one (even a
nullish one) is kept; for empty (or nullish, modelled as empty) rows the call
returns the resolved destination path and leaves the filesystem untouched. -/
theorem saveProfilesCsv_mutation_frame :
    (∀ (fs : FS) (rows : List Rec) (p : String) (app : Option Bool) (bom : Bool),
       rows ≠ [] →
       (saveProfilesCsv fs rows p app bom).2.1
           = rows.map (fun r => ensureRow r (saveColumns fs p))
         ∧ ∀ r ∈ rows, ∀ c ∈ saveColumns fs p,
             List.lookup c.key (ensureRow r (saveColumns fs p))
               = some ((List.lookup c.key r).getD (some "")))
    ∧ (∀ (fs : FS) (p : String) (app : Option Bool) (bom : Bool),
       saveProfilesCsv fs [] p app bom = (fs, [], resolvePath p)) := by
  constructor
  · intro fs rows p app bom hrows
    refine ⟨by simp [saveProfilesCsv, hrows, ensureKeysForColumns], ?_⟩
    intro r _ c hc
    exact ensureRow_lookup _ _ _ hc
  · intro fs p app bom
    simp [saveProfilesCsv]

/-- C10 witness: `saveProfilesCsv_mutation_frame` applied at a concrete row
set (a row missing every key) and at the empty row list. -/
theorem saveProfilesCsv_mutation_frame_witness :
    ([[("extra", none)]] : List Rec) ≠ []
    ∧ ((saveProfilesCsv fsNil [[("extra", none)]] "o.csv" none true).2.1
         = [[("extra", none)]].map (fun r => ensureRow r (saveColumns fsNil "o.csv"))
       ∧ ∀ r ∈ ([[("extra", none)]] : List Rec), ∀ c ∈ saveColumns fsNil "o.csv",
           List.lookup c.key (ensureRow r (saveColumns fsNil "o.csv"))
             = some ((List.lookup c.key r).getD (some "")))
    ∧ saveProfilesCsv (fsOne "keep.csv" "x") [] "o.csv" none true
        = ((fsOne "keep.csv" "x"), [], resolvePath "o.csv") :=
  ⟨by decide,
   saveProfilesCsv_mutation_frame.1 fsNil [[("extra", none)]] "o.csv" none true (by decide),
   saveProfilesCsv_mutation_frame.2 (fsOne "keep.csv" "x") "o.csv" none true⟩

/-! ## Lemmas about the escaping pipeline -/

/-- Every character that `collapseNLChars` emits is a space or came from the
input. -/
theorem mem_collapseNLChars (c : Char) (l : List Char) (h : c ∈ collapseNLChars l) :
    c = ' ' ∨ c ∈ l := by
  induction l using collapseNLChars.induct with
  | case1 => simp [collapseNLChars] at h
  | case2 =>
    rw [collapseNLChars.eq_2, if_pos rfl] at h
    exact Or.inl (List.mem_singleton.mp h)
  | case3 c0 hc0 =>
    rw [collapseNLChars.eq_2, if_neg hc0] at h
    exact Or.inr h
  | case4 c2 rest ih =>
    rw [collapseNLChars.eq_3, if_pos rfl] at h
    rcases List.mem_cons.mp h with h2 | h2
    · exact Or.inl h2
    · rcases ih h2 with h3 | h3
      · exact Or.inl h3
      · exact Or.inr (List.mem_cons_of_mem _ h3)
  | case5 c0 c2 rest hc1 hc2 ih =>
    rw [collapseNLChars.eq_3, if_neg hc1, if_pos hc2] at h
    rcases List.mem_cons.mp h with h2 | h2
    · exact Or.inl h2
    · rcases ih h2 with h3 | h3
      · exact Or.inl h3
      · exact Or.inr (List.mem_cons_of_mem _ (List.mem_cons_of_mem _ h3))
  | case6 c0 c2 rest hc1 hc2 ih =>
    rw [collapseNLChars.eq_3, if_neg hc1, if_neg hc2] at h
    rcases List.mem_cons.mp h with h2 | h2
    · subst h2
      exact Or.inr (List.mem_cons_self _ _)
    · rcases ih h2 with h3 | h3
      · exact Or.inl h3
      · exact Or.inr (List.mem_cons_of_mem _ h3)

/-- `collapseNLChars` leaves no `\n` in its output. -/
theorem newline_not_mem_collapseNLChars (l : List Char) : '\n' ∉ collapseNLChars l := by
  induction l using collapseNLChars.induct with
  | case1 => simp [collapseNLChars]
  | case2 =>
    rw [collapseNLChars.eq_2, if_pos rfl]
    decide
  | case3 c0 hc0 =>
    rw [collapseNLChars.eq_2, if_neg hc0]
    intro h
    exact hc0 (List.mem_singleton.mp h).symm
  | case4 c2 rest ih =>
    rw [collapseNLChars.eq_3, if_pos rfl]
    intro h
    rcases List.mem_cons.mp h with h2 | h2
    · exact absurd h2 (by decide)
    · exact ih h2
  | case5 c0 c2 rest hc1 hc2 ih =>
    rw [collapseNLChars.eq_3, if_neg hc1, if_pos hc2]
    intro h
    rcases List.mem_cons.mp h with h2 | h2
    · exact absurd h2 (by decide)
    · exact ih h2
  | case6 c0 c2 rest hc1 hc2 ih =>
    rw [collapseNLChars.eq_3, if_neg hc1, if_neg hc2]
    intro h
    rcases List.mem_cons.mp h with h2 | h2
    · exact hc1 h2.symm
    · exact ih h2

/-- Trimming only removes characters. -/
theorem mem_trimChars (c : Char) (l : List Char) (h : c ∈ trimChars l) : c ∈ l := by
  unfold trimChars at h
  rw [List.mem_reverse] at h
  have h2 := (List.dropWhile_sublist _).mem h
  rw [List.mem_reverse] at h2
  exact (List.dropWhile_sublist _).mem h2

/-! ## Claim C6 — the CSV field escaper -/

/-- C6: `esc` maps nullish values to the two-character string of two double
quotes; any other value is its text with NUL characters stripped, line breaks
collapsed to single spaces, surrounding whitespace trimmed, wrapped in double
quotes with internal quotes doubled — and the cleaned text indeed carries no
NUL and no `\n`. -/
theorem esc_spec :
    esc none = "\"\""
    ∧ (esc none).length = 2
    ∧ ∀ s : String,
        esc (some s) = "\"" ++ dupQuotes (jsTrim (collapseNL (stripNul s))) ++ "\""
        ∧ '\x00' ∉ (jsTrim (collapseNL (stripNul s))).data
        ∧ '\n' ∉ (jsTrim (collapseNL (stripNul s))).data := by
  refine ⟨rfl, rfl, fun s => ⟨rfl, ?_, ?_⟩⟩
  · intro h
    have h1 : '\x00' ∈ collapseNLChars (stripNul s).data := mem_trimChars _ _ h
    rcases mem_collapseNLChars _ _ h1 with h2 | h2
    · exact absurd h2 (by decide)
    · have h3 := List.mem_filter.mp h2
      simp at h3
  · intro h
    exact newline_not_mem_collapseNLChars _ (mem_trimChars _ _ h)

/-! ## Claim C7 — escape/parse round-trip -/

/-- Reading back a quote-doubled text followed by the closing quote recovers
the text. -/
theorem unq_dupChars (t : List Char) : unq (dupChars t ++ ['"']) = some t := by
  induction t with
  | nil => rfl
  | cons c rest ih =>
    by_cases hc : c = '"'
    · subst hc
      show unq ('"' :: '"' :: (dupChars rest ++ ['"'])) = _
      simp [unq, ih]
    · have hd : dupChars (c :: rest) = c :: dupChars rest := by
        rw [dupChars.eq_2, if_neg hc]
      rw [hd, List.cons_append, unq.eq_def]
      dsimp only
      rw [if_neg hc, ih]
      rfl

/-- C7 counterexample: for the string of a space followed by a double quote
(which contains `"` and no newline, so the claim demands the round-trip
return it unchanged), escape-then-parse returns just the quote — the escaper
also trimmed the surrounding whitespace. -/
theorem esc_parse_roundtrip_cex :
    parseField (esc (some " \"")) = some "\""
    ∧ collapseNL " \"" = " \""
    ∧ parseField (esc (some " \"")) ≠ some (collapseNL " \"") :=
  ⟨by decide, by decide, by decide⟩

/-- C7 (amended): for every string containing a double quote, escaping with
`esc` and parsing the field back yields the original content after NUL
stripping, newline collapsing and trimming of surrounding whitespace (for
strings without NULs or surrounding whitespace this is exactly the
newline-collapsed original). -/
theorem esc_parse_roundtrip (s : String) (_h : '"' ∈ s.data) :
    parseField (esc (some s)) = some (jsTrim (collapseNL (stripNul s))) := by
  have h1 : (esc (some s)).data
      = '"' :: (dupChars (jsTrim (collapseNL (stripNul s))).data ++ ['"']) := by
    show (("\"" ++ dupQuotes (jsTrim (collapseNL (stripNul s)))) ++ "\"").data = _
    rw [String.data_append, String.data_append]
    rfl
  unfold parseField
  rw [h1]
  dsimp only
  rw [if_pos rfl, unq_dupChars]
  rfl

/-- C7 witness: `esc_parse_roundtrip` applied to the string `a"b`. -/
theorem esc_parse_roundtrip_witness :
    '"' ∈ ("a\"b" : String).data
    ∧ parseField (esc (some "a\"b")) = some (jsTrim (collapseNL (stripNul "a\"b"))) :=
  ⟨by decide, esc_parse_roundtrip "a\"b" (by decide)⟩

/-! ## Claim C8 — BOM placement -/

/-- The head of a string survives appending on the right. -/
theorem data_head_append (x y : String) (c : Char) (h : ∃ l, x.data = c :: l) :
    ∃ l, (x ++ y).data = c :: l := by
  obtain ⟨l, hl⟩ := h
  exact ⟨l ++ y.data, by rw [String.data_append, hl]; rfl⟩

/-- `hasBom` is determined by the first character. -/
theorem hasBom_eq_head (s : String) (c : Char) (l : List Char) (h : s.data = c :: l) :
    hasBom s = (c == '\uFEFF') := by
  unfold hasBom
  rw [h]

/-- Every escaped field starts with a double quote. -/
theorem esc_data_quote (v : JsVal) : ∃ l, (esc v).data = '"' :: l := by
  cases v with
  | none => exact ⟨['"'], rfl⟩
  | some s =>
    refine ⟨(dupQuotes (jsTrim (collapseNL (stripNul s)))).data ++ "\"".data, ?_⟩
    show (("\"" ++ dupQuotes (jsTrim (collapseNL (stripNul s)))) ++ "\"").data = _
    rw [String.data_append, String.data_append]
    rfl

/-- A join keeps the head of its first element. -/
theorem joinWith_data_head (sep x : String) (xs : List String) (c : Char)
    (h : ∃ l, x.data = c :: l) : ∃ l, (joinWith sep (x :: xs)).data = c :: l := by
  cases xs with
  | nil => exact h
  | cons y ys =>
    show ∃ l, ((x ++ sep) ++ joinWith sep (y :: ys)).data = c :: l
    exact data_head_append _ _ _ (data_head_append _ _ _ h)

/-- A serialized header row starts with a double quote. -/
theorem headerFor_data_quote (c1 : Col) (cs : List Col) :
    ∃ l, (headerFor (c1 :: cs)).data = '"' :: l := by
  unfold headerFor
  exact data_head_append _ _ _ (joinWith_data_head _ _ _ _ (esc_data_quote _))

/-- A serialized body row starts with a double quote. -/
theorem rowLineFor_data_quote (c1 : Col) (cs : List Col) (r : Rec) :
    ∃ l, (rowLineFor (c1 :: cs) r).data = '"' :: l := by
  unfold rowLineFor
  exact joinWith_data_head _ _ _ _ (esc_data_quote _)

/-- A serialized body starts with a double quote. -/
theorem bodyFor_data_quote (c1 : Col) (cs : List Col) (r0 : Rec) (rows : List Rec) :
    ∃ l, (bodyFor (c1 :: cs) (r0 :: rows)).data = '"' :: l := by
  unfold bodyFor
  exact data_head_append _ _ _ (joinWith_data_head _ _ _ _ (rowLineFor_data_quote _ _ _))

/-- The chosen column set is never empty. -/
theorem saveColumns_cons (fs : FS) (p : String) :
    ∃ c1 cs, saveColumns fs p = c1 :: cs := by
  unfold saveColumns chooseColumnsForExistingHeader
  split
  · dsimp only
    split
    · exact ⟨_, _, rfl⟩
    · exact ⟨_, _, rfl⟩
  · exact ⟨_, _, rfl⟩

/-- A BOM-prefixed chunk registers a BOM. -/
theorem hasBom_of_bom_chunk (x y : String) : hasBom (("\uFEFF" ++ x) ++ y) = true := by
  obtain ⟨l, hl⟩ := data_head_append ("\uFEFF" ++ x) y '\uFEFF'
    ⟨x.data, by rw [String.data_append]; rfl⟩
  rw [hasBom_eq_head _ _ _ hl]
  decide

/-- C8 counterexample: with `append: false` requested against an existing
destination and BOM enabled, the written chunk starts with a byte-order
mark even though the call does not create a new file — contradicting
"prepended only when the call results in the creation of a new file". -/
theorem saveWritePlan_bom_cex :
    fsRead (fsOne "out.csv" "old") "out.csv" ≠ none
    ∧ hasBom (chunkOf (saveWritePlan (fsOne "out.csv" "old") [[("name", some "Ada")]]
        "out.csv" (some false) true)) = true :=
  ⟨by decide, by decide⟩

/-- C8 (amended): with BOM enabled and non-empty rows, the chunk
`saveProfilesCsv` writes starts with a byte-order mark exactly when the
header is (re)written: when the destination does not exist, or when append
mode is explicitly disabled (overwrite).  In particular a BOM is never
prepended when appending to an already-existing file. -/
theorem saveWritePlan_bom_iff (fs : FS) (rows : List Rec) (p : String)
    (app : Option Bool) (hrows : rows ≠ []) :
    hasBom (chunkOf (saveWritePlan fs rows p app true)) = true
      ↔ (fsRead fs p = none ∨ app = some false) := by
  obtain ⟨r0, rs, hr⟩ := List.exists_cons_of_ne_nil hrows
  obtain ⟨c1, cs, hcols⟩ := saveColumns_cons fs p
  have hbody : hasBom (bodyFor (saveColumns fs p)
      (ensureKeysForColumns rows (saveColumns fs p))) = false := by
    rw [hr, hcols]
    show hasBom (bodyFor (c1 :: cs)
      (ensureRow r0 (c1 :: cs) :: rs.map (fun r => ensureRow r (c1 :: cs)))) = false
    obtain ⟨l, hl⟩ := bodyFor_data_quote c1 cs (ensureRow r0 (c1 :: cs))
      (rs.map (fun r => ensureRow r (c1 :: cs)))
    rw [hasBom_eq_head _ _ _ hl]
    decide
  rcases app with _ | b
  · cases hex : fsRead fs p with
    | none =>
      simp only [saveWritePlan, hex, Option.isSome_none]
      norm_num
      exact hasBom_of_bom_chunk _ _
    | some content =>
      simp only [saveWritePlan, hex, Option.isSome_some]
      norm_num
      simp only [chunkOf]
      simp [hbody]
  · cases b with
    | true =>
      cases hex : fsRead fs p with
      | none =>
        simp only [saveWritePlan, hex, Option.isSome_none]
        norm_num
        exact hasBom_of_bom_chunk _ _
      | some content =>
        simp only [saveWritePlan, hex, Option.isSome_some]
        norm_num
        simp only [chunkOf]
        simp [hbody]
    | false =>
      cases hex : fsRead fs p with
      | none =>
        simp only [saveWritePlan, hex, Option.isSome_none]
        norm_num
        exact hasBom_of_bom_chunk _ _
      | some content =>
        simp only [saveWritePlan, hex, Option.isSome_some]
        norm_num
        exact hasBom_of_bom_chunk _ _

/-- C8 witness: `saveWritePlan_bom_iff` applied to a one-row save against a
missing destination. -/
theorem saveWritePlan_bom_iff_witness :
    ([[("name", some "Ada")]] : List Rec) ≠ []
    ∧ (hasBom (chunkOf (saveWritePlan fsNil [[("name", some "Ada")]] "out.csv" none true)) = true
        ↔ (fsRead fsNil "out.csv" = none ∨ (none : Option Bool) = some false)) :=
  ⟨by decide, saveWritePlan_bom_iff fsNil [[("name", some "Ada")]] "out.csv" none (by decide)⟩

/-! ## Claim C2 — backup before overwrite -/

/-- Reading back the path just written. -/
theorem fsRead_fsWrite_self (fs : FS) (p c : String) :
    fsRead (fsWrite fs p c) p = some c := by
  simp [fsRead, fsWrite]

/-- Writing one path leaves every other path untouched. -/
theorem fsRead_fsWrite_other (fs : FS) (p c q : String) (h : q ≠ p) :
    fsRead (fsWrite fs p c) q = fsRead fs q := by
  simp [fsRead, fsWrite, h]

/-- Appending a non-empty suffix changes the path. -/
theorem bak_path_ne (p : String) : p ++ ".bak" ≠ p := by
  intro h
  have hl := congrArg String.length h
  rw [String.length_append] at hl
  have h4 : (".bak" : String).length = 4 := rfl
  omega

/-- C2: for a migration with backup enabled that requires a change (the file
reads and parses to at least one record whose headers are not
already-canonical-and-Email-free): if the backup write fails, the run aborts
with `backupWriteError` and the filesystem — in particular the original
file — is unchanged; if the backup write succeeds, the backup file at the
fixed `.bak` suffix holds the original raw bytes, and this happens before the
original is overwritten: when the subsequent overwrite fails, the filesystem
holds exactly the backup with the original file still intact. -/
theorem upgrade_backup_protects (writeOk : String → Bool) (fs : FS) (p raw : String)
    (r0 : Rec) (rest : List Rec)
    (hread : fsRead fs p = some raw)
    (hparse : parseObjects raw = r0 :: rest)
    (hchange : (alreadyCanonicalB (r0.map Prod.fst)
        && !(hasEmailB (r0.map Prod.fst))) = false) :
    (writeOk (p ++ ".bak") = false →
       (upgradeCsvHeadersFS writeOk fs p true).1 = UpgradeOutcome.backupWriteError
       ∧ (upgradeCsvHeadersFS writeOk fs p true).2 = fs)
    ∧ (writeOk (p ++ ".bak") = true →
       fsRead (upgradeCsvHeadersFS writeOk fs p true).2 (p ++ ".bak") = some raw)
    ∧ (writeOk (p ++ ".bak") = true → writeOk p = false →
       (upgradeCsvHeadersFS writeOk fs p true).2 = fsWrite fs (p ++ ".bak") raw
       ∧ fsRead (upgradeCsvHeadersFS writeOk fs p true).2 p = some raw) := by
  have hrun : upgradeCsvHeadersFS writeOk fs p true
      = upgradeParsed writeOk fs p raw true := by
    unfold upgradeCsvHeadersFS resolvePath
    rw [hread]
  rw [hrun]
  unfold upgradeParsed
  rw [hparse]
  dsimp only
  rw [hchange]
  simp only [Bool.false_eq_true, if_false]
  refine ⟨?_, ?_, ?_⟩
  · intro hbak
    simp only [hbak, Bool.false_eq_true, if_false]
    exact ⟨rfl, rfl⟩
  · intro hbak
    simp only [hbak, if_true]
    by_cases hw : writeOk p = true
    · simp only [hw, if_true]
      rw [fsRead_fsWrite_other _ _ _ _ (bak_path_ne p)]
      exact fsRead_fsWrite_self fs (p ++ ".bak") raw
    · rw [Bool.not_eq_true] at hw
      simp only [hw, Bool.false_eq_true, if_false]
      exact fsRead_fsWrite_self fs (p ++ ".bak") raw
  · intro hbak hw
    simp only [hbak, if_true, hw, Bool.false_eq_true, if_false]
    refine ⟨trivial, ?_⟩
    rw [fsRead_fsWrite_other _ _ _ _ (bak_path_ne p).symm]
    exact hread

/-- C2 witness: `upgrade_backup_protects` applied to a concrete migration of
a `[Name, Email, Company]` file whose backup write fails: the run aborts with
`backupWriteError` and the filesystem is exactly the input one. -/
theorem upgrade_backup_protects_witness :
    fsRead (fsOne "a.csv" "Name,Email,Company\r\nAda,x@y.com,Acme\r\n") "a.csv"
      = some "Name,Email,Company\r\nAda,x@y.com,Acme\r\n"
    ∧ parseObjects "Name,Email,Company\r\nAda,x@y.com,Acme\r\n"
      = [[("Name", some "Ada"), ("Email", some "x@y.com"), ("Company", some "Acme")]]
    ∧ (alreadyCanonicalB
          (([("Name", some "Ada"), ("Email", some "x@y.com"), ("Company", some "Acme")] :
              Rec).map Prod.fst)
        && !(hasEmailB
          (([("Name", some "Ada"), ("Email", some "x@y.com"), ("Company", some "Acme")] :
              Rec).map Prod.fst))) = false
    ∧ ((upgradeCsvHeadersFS (fun _ => false)
          (fsOne "a.csv" "Name,Email,Company\r\nAda,x@y.com,Acme\r\n") "a.csv" true).1
        = UpgradeOutcome.backupWriteError
       ∧ (upgradeCsvHeadersFS (fun _ => false)
          (fsOne "a.csv" "Name,Email,Company\r\nAda,x@y.com,Acme\r\n") "a.csv" true).2
        = fsOne "a.csv" "Name,Email,Company\r\nAda,x@y.com,Acme\r\n") :=
  ⟨by decide, by decide, by decide,
   (upgrade_backup_protects (fun _ => false)
      (fsOne "a.csv" "Name,Email,Company\r\nAda,x@y.com,Acme\r\n") "a.csv"
      "Name,Email,Company\r\nAda,x@y.com,Acme\r\n"
      [("Name", some "Ada"), ("Email", some "x@y.com"), ("Company", some "Acme")] []
      (by decide) (by decide) (by decide)).1 rfl⟩

/-! ## Claim C3 — idempotence of the migration on canonical, Email-free files -/

/-- If the lower-cased leading columns of `bs` equal `as` lower-cased, the
source's indexed prefix check (length guard plus zipped all) passes. -/
theorem zip_all_of_take (as : List String) :
    ∀ bs : List String, ((bs.map lowerStr).take as.length = as.map lowerStr) →
      (decide (as.length ≤ bs.length)
        && (as.zip bs).all (fun q => lowerStr q.2 == lowerStr q.1)) = true := by
  induction as with
  | nil =>
    intro bs h
    simp
  | cons a as ih =>
    intro bs h
    cases bs with
    | nil => simp at h
    | cons b bs =>
      simp only [List.map_cons, List.length_cons, List.take_succ_cons,
        List.cons.injEq] at h
      obtain ⟨h1, h2⟩ := h
      have hrec := ih bs h2
      rw [Bool.and_eq_true] at hrec
      obtain ⟨hlen, hall⟩ := hrec
      rw [Bool.and_eq_true]
      constructor
      · simp only [decide_eq_true_eq] at hlen ⊢
        simp only [List.length_cons]
        omega
      · rw [List.zip_cons_cons, List.all_cons, h1]
        simp [hall]

/-- C3: a file that reads and parses with no case-insensitive `Email` header
and whose leading headers equal the canonical sequence (case-insensitive, in
order) is reported unchanged, and the filesystem — in particular the file's
bytes — is left exactly as it was. -/
theorem upgrade_canonical_noop (writeOk : String → Bool) (backup : Bool) (fs : FS)
    (p raw : String)
    (hread : fsRead fs p = some raw)
    (hnoEmail : hasEmailB (headersOfContent raw) = false)
    (hcanon : ((headersOfContent raw).map lowerStr).take 8
        = canonicalOrder.map lowerStr) :
    (upgradeCsvHeadersFS writeOk fs p backup).2 = fs
    ∧ ∃ r, (upgradeCsvHeadersFS writeOk fs p backup).1
        = UpgradeOutcome.ok (UpgradeResult.unchanged r) := by
  have hrun : upgradeCsvHeadersFS writeOk fs p backup
      = upgradeParsed writeOk fs p raw backup := by
    unfold upgradeCsvHeadersFS resolvePath
    rw [hread]
  rw [hrun]
  unfold upgradeParsed
  cases hobj : parseObjects raw with
  | nil => exact ⟨rfl, "empty", rfl⟩
  | cons r0 rest =>
    have hh : headersOfContent raw = r0.map Prod.fst := by
      unfold headersOfContent
      rw [hobj]
    rw [hh] at hnoEmail hcanon
    have hac : alreadyCanonicalB (r0.map Prod.fst) = true := by
      have hz := zip_all_of_take canonicalOrder (r0.map Prod.fst) hcanon
      rw [Bool.and_eq_true] at hz
      unfold alreadyCanonicalB
      rw [hnoEmail, hz.1, hz.2]
      rfl
    dsimp only
    rw [hac, hnoEmail]
    exact ⟨rfl, "already-canonical", rfl⟩

/-- C3 witness: `upgrade_canonical_noop` applied to a concrete file whose
header is exactly the canonical sequence and which has no Email column. -/
theorem upgrade_canonical_noop_witness :
    fsRead (fsOne "c.csv" "Full Name,First Name,Last Name,Title,Company,Person Location,LinkedIn URL,Website\r\nA,B,C,D,E,F,G,H\r\n") "c.csv"
      = some "Full Name,First Name,Last Name,Title,Company,Person Location,LinkedIn URL,Website\r\nA,B,C,D,E,F,G,H\r\n"
    ∧ hasEmailB (headersOfContent "Full Name,First Name,Last Name,Title,Company,Person Location,LinkedIn URL,Website\r\nA,B,C,D,E,F,G,H\r\n") = false
    ∧ ((headersOfContent "Full Name,First Name,Last Name,Title,Company,Person Location,LinkedIn URL,Website\r\nA,B,C,D,E,F,G,H\r\n").map lowerStr).take 8
      = canonicalOrder.map lowerStr
    ∧ ((upgradeCsvHeadersFS (fun _ => true)
          (fsOne "c.csv" "Full Name,First Name,Last Name,Title,Company,Person Location,LinkedIn URL,Website\r\nA,B,C,D,E,F,G,H\r\n") "c.csv" true).2
        = fsOne "c.csv" "Full Name,First Name,Last Name,Title,Company,Person Location,LinkedIn URL,Website\r\nA,B,C,D,E,F,G,H\r\n"
       ∧ ∃ r, (upgradeCsvHeadersFS (fun _ => true)
          (fsOne "c.csv" "Full Name,First Name,Last Name,Title,Company,Person Location,LinkedIn URL,Website\r\nA,B,C,D,E,F,G,H\r\n") "c.csv" true).1
        = UpgradeOutcome.ok (UpgradeResult.unchanged r)) :=
  ⟨by decide, by decide, by decide,
   upgrade_canonical_noop (fun _ => true) true
     (fsOne "c.csv" "Full Name,First Name,Last Name,Title,Company,Person Location,LinkedIn URL,Website\r\nA,B,C,D,E,F,G,H\r\n")
     "c.csv" "Full Name,First Name,Last Name,Title,Company,Person Location,LinkedIn URL,Website\r\nA,B,C,D,E,F,G,H\r\n"
     (by decide) (by decide) (by decide)⟩

/-! ## Claim C4 — migrating a `[Name, Email, Company]` file -/

/-- C4: migrating a CSV with header `[Name, Email, Company]` produces exactly
the canonical eight-column header; every row maps to a record whose
`Full Name` holds the row's `Name` value, whose `Company` holds the row's
`Company` value, and which carries no `Email` binding at all; on a concrete
file the run reports the canonical columns and the rewritten file contains
the `Name` value but not the `Email` value. -/
theorem upgrade_name_email_company :
    finalHeadersOf ["Name", "Email", "Company"] = canonicalOrder
    ∧ (∀ n e c : String,
        mapRow ["Name", "Email", "Company"] (buildObj ["Name", "Email", "Company"] [n, e, c])
          = [("Full Name", n), ("First Name", ""), ("Last Name", ""), ("Title", ""),
             ("Company", c), ("Person Location", ""), ("LinkedIn URL", ""), ("Website", "")])
    ∧ (upgradeCsvHeadersFS (fun _ => true)
          (fsOne "l.csv" "Name,Email,Company\r\nAda,ada@x.com,Acme\r\n") "l.csv" true).1
        = UpgradeOutcome.ok (UpgradeResult.changed canonicalOrder)
    ∧ ((fsRead (upgradeCsvHeadersFS (fun _ => true)
          (fsOne "l.csv" "Name,Email,Company\r\nAda,ada@x.com,Acme\r\n") "l.csv" true).2
          "l.csv").getD ""
        = "\uFEFFFull Name,First Name,Last Name,Title,Company,Person Location,LinkedIn URL,Website\nAda,,,,Acme,,,\n"
       ∧ strContains ((fsRead (upgradeCsvHeadersFS (fun _ => true)
          (fsOne "l.csv" "Name,Email,Company\r\nAda,ada@x.com,Acme\r\n") "l.csv" true).2
          "l.csv").getD "") "ada@x.com" = false
       ∧ strContains ((fsRead (upgradeCsvHeadersFS (fun _ => true)
          (fsOne "l.csv" "Name,Email,Company\r\nAda,ada@x.com,Acme\r\n") "l.csv" true).2
          "l.csv").getD "") "Ada" = true) := by
  refine ⟨by decide, ?_, by decide, by decide, by decide, by decide⟩
  intro n e c
  have hrow : buildObj ["Name", "Email", "Company"] [n, e, c]
      = [("Name", some n), ("Email", some e), ("Company", some c)] := rfl
  rw [hrow]
  have hloopFull : getValueLoop [("Name", some n), ("Email", some e), ("Company", some c)]
      ["Name", "Email", "Company"] ["Full Name", "Name", "full name", "fullname", "full_name"]
      = if jsTrim n ≠ "" then some n else none := rfl
  have hfull : getValue [("Name", some n), ("Email", some e), ("Company", some c)]
      ["Name", "Email", "Company"] ["Full Name", "Name", "full name", "fullname", "full_name"]
      = n := by
    unfold getValue
    rw [hloopFull]
    by_cases hn : jsTrim n = ""
    · rw [if_neg (not_not_intro hn)]
      rfl
    · rw [if_pos hn]
  have hloopComp : getValueLoop [("Name", some n), ("Email", some e), ("Company", some c)]
      ["Name", "Email", "Company"] ["Company", "company"]
      = if jsTrim c ≠ "" then some c else
          if jsTrim c ≠ "" then some c else none := rfl
  have hcomp : getValue [("Name", some n), ("Email", some e), ("Company", some c)]
      ["Name", "Email", "Company"] ["Company", "company"] = c := by
    unfold getValue
    rw [hloopComp]
    by_cases hc : jsTrim c = ""
    · rw [if_neg (not_not_intro hc), if_neg (not_not_intro hc)]
      rfl
    · rw [if_pos hc]
  show [("Full Name", getValue [("Name", some n), ("Email", some e), ("Company", some c)]
          ["Name", "Email", "Company"] ["Full Name", "Name", "full name", "fullname", "full_name"]),
        ("First Name", getValue [("Name", some n), ("Email", some e), ("Company", some c)]
          ["Name", "Email", "Company"] ["First Name", "first_name", "first name", "firstname"]),
        ("Last Name", getValue [("Name", some n), ("Email", some e), ("Company", some c)]
          ["Name", "Email", "Company"] ["Last Name", "last_name", "last name", "lastname"]),
        ("Title", getValue [("Name", some n), ("Email", some e), ("Company", some c)]
          ["Name", "Email", "Company"] ["Title", "title"]),
        ("Company", getValue [("Name", some n), ("Email", some e), ("Company", some c)]
          ["Name", "Email", "Company"] ["Company", "company"]),
        ("Person Location", getValue [("Name", some n), ("Email", some e), ("Company", some c)]
          ["Name", "Email", "Company"]
          ["Person Location", "Location", "person_location", "person location", "location"]),
        ("LinkedIn URL", getValue [("Name", some n), ("Email", some e), ("Company", some c)]
          ["Name", "Email", "Company"]
          ["LinkedIn URL", "LinkedIn", "person_title", "linkedin url", "linkedin"]),
        ("Website", getValue [("Name", some n), ("Email", some e), ("Company", some c)]
          ["Name", "Email", "Company"]
          ["Website", "domain", "Domain", "domain1", "domain2", "domain3"])]
      = [("Full Name", n), ("First Name", ""), ("Last Name", ""), ("Title", ""),
         ("Company", c), ("Person Location", ""), ("LinkedIn URL", ""), ("Website", "")]
  rw [hfull, hcomp]
  rfl
